import Mathlib

/-!
# Verification of the mind-map core against its specification

Shallow embedding of the algorithmic core of the repository:

* `validateAndCleanMindMap` — the recursive sanitizer of the untrusted
  JSON payload (service file, `validateAndCleanMindMap`);
* the radial layout's radius computation and the focus-mode
  (ancestor-path) emphasis pass (`components/SidePanel.tsx`, `MindMap`);
* the localStorage archive store (`getArchivedMindMaps`, `saveMindMap`,
  `deleteMindMap`).

JavaScript values that can reach the sanitizer are the outputs of
`JSON.parse`: finite, acyclic, free of `undefined`.  They are modelled by
the mutually inductive `JVal`/`JArr`/`JObj` below (arrays and object
field lists are inlined so that all recursion is structural).  An absent
object property is modelled by a failed lookup (`none`), which is how
`undefined` behaves in every expression the embedded code performs on it.
Objects produced by `JSON.parse` bind each key at most once, so field
lookup returns the unique binding when present.
-/

mutual

/-- A JavaScript value as produced by `JSON.parse` (hence finite and
acyclic).  `NaN` does not arise from `JSON.parse`, so numbers are modelled
by `Int`; none of the embedded code does arithmetic on payload numbers. -/
inductive JVal where
  | jnull
  | jbool (b : Bool)
  | jnum (n : Int)
  | jstr (s : String)
  | jarr (elems : JArr)
  | jobj (fields : JObj)
deriving DecidableEq, Repr

/-- A JavaScript array of `JVal`s (inlined list, kept mutual with `JVal`
so that recursion over values is structural). -/
inductive JArr where
  | nil
  | cons (head : JVal) (tail : JArr)
deriving DecidableEq, Repr

/-- The field list of a JavaScript object: ordered key/value bindings. -/
inductive JObj where
  | nil
  | cons (key : String) (val : JVal) (tail : JObj)
deriving DecidableEq, Repr

end

/-- Truthiness of a JavaScript value, as used by the sanitizer's
`!node` guard and by `node.sourceText || 'N/A'`.  Falsy values among
`JSON.parse` outputs: `null`, `false`, `0`, `""`. -/
def truthy : JVal → Bool
  | .jnull => false
  | .jbool b => b
  | .jnum n => n != 0
  | .jstr s => s != ""
  | .jarr _ => true
  | .jobj _ => true

/-- Property lookup on an object's field list (first binding wins; a
`JSON.parse` object binds each key once). -/
def lookupField : JObj → String → Option JVal
  | .nil, _ => none
  | .cons k v rest, key => if k = key then some v else lookupField rest key

/-- `value.prop` for a payload value: `some` the bound value on an object
that has the property, `none` (i.e. `undefined`) otherwise.  Property
access on truthy non-objects (numbers, strings, booleans, arrays) yields
`undefined` for the property names the sanitizer uses, and the sanitizer
never dereferences a falsy value. -/
def getProp : JVal → String → Option JVal
  | .jobj fields, key => lookupField fields key
  | _, _ => none

mutual

/-- A sanitized mind-map node at runtime, mirroring the object literal the
sanitizer builds: `title` and `summary` are strings (they are type-checked
before the node is built), `sourceText` holds whatever JavaScript value
`node.sourceText || 'N/A'` evaluates to (the code does not type-check it,
so it can be any truthy payload value), and `children` is either absent or
a list (possibly empty) of sanitized nodes. -/
inductive MindMapNode where
  | mk (title summary : String) (sourceText : JVal) (children : MMChildren)
deriving DecidableEq, Repr

/-- The `children` property of a sanitized node: absent, or present with a
list of nodes.  Presence with the empty list (`children: []`) is distinct
from absence, exactly as for the JavaScript object. -/
inductive MMChildren where
  | absent
  | present (cs : MMList)
deriving DecidableEq, Repr

/-- A list of sanitized nodes (inlined, mutual with `MindMapNode`). -/
inductive MMList where
  | nil
  | cons (head : MindMapNode) (tail : MMList)
deriving DecidableEq, Repr

end

def MindMapNode.title : MindMapNode → String
  | .mk t _ _ _ => t

def MindMapNode.summary : MindMapNode → String
  | .mk _ s _ _ => s

def MindMapNode.sourceText : MindMapNode → JVal
  | .mk _ _ st _ => st

def MindMapNode.children : MindMapNode → MMChildren
  | .mk _ _ _ c => c

/-- Plain-list view of an `MMList`. -/
def MMList.toList : MMList → List MindMapNode
  | .nil => []
  | .cons c rest => c :: rest.toList

/-- `title.substring(0, 200)`: the first 200 characters of the title.
(JavaScript counts UTF-16 code units where Lean counts characters; the
distinction does not matter for the properties proved here.) -/
def truncate200 (s : String) : String := String.mk (s.data.take 200)

/-- `node.sourceText || 'N/A'`: keep a truthy value, replace an absent or
falsy one by the sentinel. -/
def cleanSourceText : Option JVal → JVal
  | some v => if truthy v then v else .jstr "N/A"
  | none => .jstr "N/A"

mutual

/-- Embedding of `validateAndCleanMindMap` from the service file.
A node is rejected (`none`, i.e. `null`) unless it is truthy and its
`title` and `summary` properties are strings; only objects can pass this
test, so the object case is the sole constructor that can produce a value.
On success the code builds
`{ title: node.title.substring(0, 200), summary: node.summary,
   sourceText: node.sourceText || 'N/A' }`
and then assigns `children` only when `node.children` is an array of
positive length; see `cleanChildrenField`. -/
def validateAndCleanMindMap : JVal → Option MindMapNode
  | .jobj fields =>
      match lookupField fields "title", lookupField fields "summary" with
      | some (.jstr title), some (.jstr summary) =>
          some (.mk (truncate200 title) summary
            (cleanSourceText (lookupField fields "sourceText"))
            (cleanChildrenField fields))
      | _, _ => none
  | _ => none

/-- The `children` clause of the sanitizer, fused with the lookup of the
`children` property so that the recursion stays structural:
`if (Array.isArray(node.children) && node.children.length > 0)
   validNode.children = node.children.map(validate).filter(nonNull)`.
A missing `children` property, a non-array value, or an empty array leave
`children` absent; a non-empty array makes it present with the filtered
recursive results (which may well be the empty list). -/
def cleanChildrenField : JObj → MMChildren
  | .nil => .absent
  | .cons k v rest =>
      if k = "children" then
        match v with
        | .jarr (.cons c cs) => .present (cleanChildList (.cons c cs))
        | _ => .absent
      else cleanChildrenField rest

/-- `children.map(validateAndCleanMindMap).filter(child => child !== null)`:
sanitize each element, keep the survivors in order. -/
def cleanChildList : JArr → MMList
  | .nil => .nil
  | .cons c rest =>
      match validateAndCleanMindMap c with
      | some n => .cons n (cleanChildList rest)
      | none => cleanChildList rest

end

/-!
## Re-running the sanitizer on its own output

The spec's idempotence property feeds the sanitizer's result (a plain
JavaScript object) back into the sanitizer.  `encodeNode` writes a
sanitized node back as the `JVal` it is at runtime: the object carries
exactly the properties the sanitizer assigned — `title`, `summary`,
`sourceText` always, `children` only when it was assigned.
-/

mutual

/-- The JavaScript object a sanitized node is at runtime. -/
def encodeNode : MindMapNode → JVal
  | .mk t s st c =>
      .jobj (.cons "title" (.jstr t) (.cons "summary" (.jstr s)
        (.cons "sourceText" st (encodeChildren c))))

/-- Trailing field list for the optional `children` property. -/
def encodeChildren : MMChildren → JObj
  | .absent => .nil
  | .present cs => .cons "children" (.jarr (encodeList cs)) .nil

/-- Encode a list of sanitized nodes as a JavaScript array. -/
def encodeList : MMList → JArr
  | .nil => .nil
  | .cons c rest => .cons (encodeNode c) (encodeList rest)

end

mutual

/-- Collapse every empty `children` list to an absent `children` property.
Re-sanitizing a sanitized tree performs exactly this change (an empty
array fails the `length > 0` test, so no `children` property is
assigned the second time). -/
def pruneEmpty : MindMapNode → MindMapNode
  | .mk t s st c => .mk t s st (pruneEmptyChildren c)

def pruneEmptyChildren : MMChildren → MMChildren
  | .absent => .absent
  | .present .nil => .absent
  | .present (.cons c rest) => .present (pruneEmptyList (.cons c rest))

def pruneEmptyList : MMList → MMList
  | .nil => .nil
  | .cons c rest => .cons (pruneEmpty c) (pruneEmptyList rest)

end

mutual

/-- The invariant every sanitizer output satisfies: each node's title has
at most 200 characters and each node's `sourceText` is truthy (it is
either a truthy input value or the sentinel `"N/A"`). -/
def sanitizedB : MindMapNode → Bool
  | .mk t _ st c => decide (t.length ≤ 200) && truthy st && sanitizedChildrenB c

def sanitizedChildrenB : MMChildren → Bool
  | .absent => true
  | .present cs => sanitizedListB cs

def sanitizedListB : MMList → Bool
  | .nil => true
  | .cons c rest => sanitizedB c && sanitizedListB rest

end

mutual

/-- Height of a sanitized tree: number of nodes on its longest
root-to-leaf chain (a childless node has height 1).  A `children: []`
node also has height 1. -/
def mmHeight : MindMapNode → Nat
  | .mk _ _ _ c => 1 + mmHeightChildren c

def mmHeightChildren : MMChildren → Nat
  | .absent => 0
  | .present cs => mmHeightList cs

def mmHeightList : MMList → Nat
  | .nil => 0
  | .cons c rest => max (mmHeight c) (mmHeightList rest)

end

/-- A well-formed payload nested `k + 1` object levels deep: each level is
a valid node whose only child is the next level. -/
def chainPayload : Nat → JVal
  | 0 => .jobj (.cons "title" (.jstr "leaf") (.cons "summary" (.jstr "s") .nil))
  | k + 1 =>
      .jobj (.cons "title" (.jstr "node") (.cons "summary" (.jstr "s")
        (.cons "children" (.jarr (.cons (chainPayload k) .nil)) .nil)))

/-- The sanitized tree `chainPayload k` cleans to: the same chain. -/
def chainClean : Nat → MindMapNode
  | 0 => .mk "leaf" "s" (.jstr "N/A") .absent
  | k + 1 => .mk "node" "s" (.jstr "N/A") (.present (.cons (chainClean k) .nil))

/-!
## The rendered hierarchy (d3 side)

`SidePanel.tsx` builds `d3.hierarchy(data)` over a sanitized tree.  d3
attaches children only when the accessor returns a non-empty array, so a
node with `children: []` is a leaf of the hierarchy exactly like a node
without the property.  The functions below are the hierarchy facts the
component consumes: the set of node data (`descendants`), the parent→child
links, and the leaf count.  d3 iterates breadth-first where the functions
below walk depth-first; every property proved about them only uses which
nodes and links occur, never their order, except the path search — see
`pathTo`.
-/

/-- The hierarchy children of a node: the `children` list when it is
present and non-empty, otherwise nothing (d3 drops empty arrays). -/
def childNodes : MindMapNode → List MindMapNode
  | .mk _ _ _ .absent => []
  | .mk _ _ _ (.present cs) => cs.toList

mutual

/-- All node data of the hierarchy rooted at a node (the root included),
as collected by `root.descendants()`. -/
def mmDescend : MindMapNode → List MindMapNode
  | .mk t s st .absent => [.mk t s st .absent]
  | .mk t s st (.present cs) => .mk t s st (.present cs) :: mmDescendList cs

def mmDescendList : MMList → List MindMapNode
  | .nil => []
  | .cons c rest => mmDescend c ++ mmDescendList rest

end

mutual

/-- All parent→child links of the hierarchy (`root.links()`, as
(source data, target data) pairs). -/
def treeLinks : MindMapNode → List (MindMapNode × MindMapNode)
  | .mk _ _ _ .absent => []
  | .mk t s st (.present cs) =>
      (cs.toList.map (fun c => (MindMapNode.mk t s st (.present cs), c)))
        ++ treeLinksList cs

def treeLinksList : MMList → List (MindMapNode × MindMapNode)
  | .nil => []
  | .cons c rest => treeLinks c ++ treeLinksList rest

end

mutual

/-- `root.leaves().length`: the number of hierarchy nodes without
children.  A node with an absent or empty `children` list is a leaf. -/
def leavesCount : MindMapNode → Nat
  | .mk _ _ _ .absent => 1
  | .mk _ _ _ (.present .nil) => 1
  | .mk _ _ _ (.present (.cons c rest)) => leavesList (.cons c rest)

def leavesList : MMList → Nat
  | .nil => 0
  | .cons c rest => leavesCount c + leavesList rest

end

/-!
## Focus-mode emphasis (the `isFocusMode` effect of `MindMap`)

The effect finds the hierarchy node whose data is the selected node
(`descendants().find(d => d.data === selectedNode)`), walks its parent
chain collecting the data objects into the `ancestors` set, and then
assigns every node an opacity (`1` on the set, `0.15` off it), every link
a stroke opacity (`1` when both endpoints are in the set, `0.1`
otherwise), and every circle a radius and fill (the selected node gets
radius `8` and the amber highlight, everything else keeps its normal
style).  With no selection (or focus mode off) everything is reset to
full opacity and normal style.

The find plus parent walk computes exactly the root-to-selected path when
the selected node occurs in the tree, and the empty set when it does not.
`pathTo` computes that path top-down.  The component compares nodes by
JavaScript reference identity; the embedding compares them structurally,
which coincides with reference identity on trees whose node data are
pairwise distinct (`(mmDescend data).Nodup`) — every tree freshly built
by `JSON.parse` plus the sanitizer has distinct node objects, and
theorems about a selected node inside the tree carry that hypothesis. -/

mutual

/-- Root-to-`sel` path in the hierarchy (first match), `none` when `sel`
does not occur. -/
def pathTo : MindMapNode → MindMapNode → Option (List MindMapNode)
  | .mk t s st c, sel =>
      if MindMapNode.mk t s st c = sel then some [MindMapNode.mk t s st c]
      else
        match c with
        | .absent => none
        | .present cs => (pathToList cs sel).map (fun p => MindMapNode.mk t s st c :: p)

def pathToList : MMList → MindMapNode → Option (List MindMapNode)
  | .nil, _ => none
  | .cons c rest, sel =>
      match pathTo c sel with
      | some p => some p
      | none => pathToList rest sel

end

/-- The `ancestors` set of the focus effect: the data on the
root-to-selected path, or empty when the selected node is absent from the
tree (the `find` fails and the `while` loop never runs). -/
def focusAncestors (data sel : MindMapNode) : List MindMapNode :=
  (pathTo data sel).getD []

/-- Node-group opacity assigned by the focus effect:
`ancestors.has(d.data) ? 1 : 0.15` in focus mode with a selection, `1`
otherwise. -/
def nodeOpacity (isFocusMode : Bool) (data : MindMapNode)
    (selected : Option MindMapNode) (d : MindMapNode) : ℚ :=
  match isFocusMode, selected with
  | true, some s => if d ∈ focusAncestors data s then 1 else 0.15
  | _, _ => 1

/-- Link stroke opacity assigned by the focus effect: `1` when source and
target data are both in the `ancestors` set, `0.1` otherwise; `1` with no
selection. -/
def linkStrokeOpacity (isFocusMode : Bool) (data : MindMapNode)
    (selected : Option MindMapNode) (src tgt : MindMapNode) : ℚ :=
  match isFocusMode, selected with
  | true, some s =>
      if src ∈ focusAncestors data s ∧ tgt ∈ focusAncestors data s then 1 else 0.1
  | _, _ => 1

/-- Circle radius assigned by the focus effect: `8` for the selected
node's circle, `5` for every other circle (and for everything when there
is no selection). -/
def circleRadius (isFocusMode : Bool) (selected : Option MindMapNode)
    (d : MindMapNode) : ℚ :=
  match isFocusMode, selected with
  | true, some s => if d = s then 8 else 5
  | _, _ => 5

/-- Circle fill for a node outside the active highlight: theme- and
branch-dependent, as in both branches of the effect. -/
def defaultCircleFill (isDarkMode : Bool) (d : MindMapNode) : String :=
  if childNodes d ≠ [] then
    if isDarkMode then "#38bdf8" else "#0ea5e9"
  else
    if isDarkMode then "#0c4a6e" else "#e0f2fe"

/-- Circle fill assigned by the focus effect: amber for the selected
node, the normal theme fill otherwise. -/
def circleFill (isDarkMode isFocusMode : Bool) (selected : Option MindMapNode)
    (d : MindMapNode) : String :=
  match isFocusMode, selected with
  | true, some s => if d = s then "#f59e0b" else defaultCircleFill isDarkMode d
  | _, _ => defaultCircleFill isDarkMode d

/-!
## Radius budgeting of the radial layout (`MindMap`, first effect)

```
const leafCount = leaves.length || 1;
const spacePerLeaf = 35;
const requiredCircumference = leafCount * spacePerLeaf;
const calculatedRadius = requiredCircumference / (2 * Math.PI);
const minRadius = Math.min(width, height) / 2.5;
const radius = Math.max(calculatedRadius, minRadius);
```

The effect returns early when the viewport has zero width or height, so
the radius is only ever computed for a positive viewport; theorems about
it carry that hypothesis.  JavaScript numbers are IEEE doubles; the
embedding computes in `ℝ`. -/

noncomputable def computeRadius (t : MindMapNode) (width height : ℝ) : ℝ :=
  let leafCount : ℕ := if leavesCount t = 0 then 1 else leavesCount t
  let spacePerLeaf : ℝ := 35
  let requiredCircumference : ℝ := (leafCount : ℝ) * spacePerLeaf
  let calculatedRadius : ℝ := requiredCircumference / (2 * Real.pi)
  let minRadius : ℝ := min width height / 2.5
  max calculatedRadius minRadius

/-!
## Archive store (localStorage service)

The persisted state is one localStorage slot under the key
`'mindMapArchive'` holding a JSON string.  `LocalStorage.archiveSlot`
models that slot by the outcome of reading it back: `none` when
`getItem` returns `null` or the empty string (both falsy, both returned
as the empty archive before parsing), `some .malformed` when the stored
text makes the `try` block throw (`JSON.parse` failure, or a parsed
value without a callable `sort`), and `some (.wellFormed entries)` when
it is the JSON serialization of an entry array
(`JSON.parse ∘ JSON.stringify` is the identity on these, so the slot
stores the list itself).  `setItemThrows` models the durable write
failing (e.g. quota exceeded): `setItem` then throws and leaves the
stored value unchanged. -/

structure ArchivedMindMap where
  id : Int
  fileName : String
  createdAt : String
  mindMapData : MindMapNode
deriving DecidableEq, Repr

inductive StorageBlob where
  | wellFormed (entries : List ArchivedMindMap)
  | malformed
deriving DecidableEq, Repr

structure LocalStorage where
  archiveSlot : Option StorageBlob
  setItemThrows : Bool
deriving DecidableEq, Repr

/-- The `try` block of `getArchivedMindMaps`: read the raw slot, return
`[]` when it is empty, otherwise parse and sort by `id` descending
(`archives.sort((a, b) => b.id - a.id)`, a stable descending sort);
`.error` is a throw inside the block. -/
def getArchivedRaw (st : LocalStorage) : Except Unit (List ArchivedMindMap) :=
  match st.archiveSlot with
  | none => .ok []
  | some .malformed => .error ()
  | some (.wellFormed archives) =>
      .ok (archives.mergeSort (fun a b => decide (b.id ≤ a.id)))

/-- `getArchivedMindMaps`: the `try` block with its `catch`, which logs
and returns the empty list on any failure. -/
def getArchivedMindMaps (st : LocalStorage) : List ArchivedMindMap :=
  match getArchivedRaw st with
  | .ok l => l
  | .error _ => []

/-- `saveMindMap(fileName, mindMapData)`.  `Date.now()` and
`new Date().toISOString()` are ambient inputs, passed as the `now` and
`nowIso` parameters.  Returns the list the caller observes together with
the post-call storage state: on a successful `setItem` the slot holds the
updated list, on a throwing `setItem` the slot is unchanged and the
pre-save list is returned. -/
def saveMindMap (st : LocalStorage) (now : Int) (nowIso : String)
    (fileName : String) (mindMapData : MindMapNode) :
    List ArchivedMindMap × LocalStorage :=
  let archives := getArchivedMindMaps st
  let newArchive : ArchivedMindMap :=
    { id := now, fileName := fileName, createdAt := nowIso, mindMapData := mindMapData }
  let updatedArchives := newArchive :: archives
  if st.setItemThrows then
    (archives, st)
  else
    (updatedArchives, { st with archiveSlot := some (.wellFormed updatedArchives) })

/-- `deleteMindMap(id)`: drop the entries with the given `id`, persist;
on a throwing `setItem`, return the pre-delete list with storage
unchanged. -/
def deleteMindMap (st : LocalStorage) (id : Int) :
    List ArchivedMindMap × LocalStorage :=
  let archives := getArchivedMindMaps st
  let updatedArchives := archives.filter (fun archive => archive.id != id)
  if st.setItemThrows then
    (archives, st)
  else
    (updatedArchives, { st with archiveSlot := some (.wellFormed updatedArchives) })

/-- `true` exactly on string values; the data model of `types.ts`
declares `sourceText: string`. -/
def JVal.isStr : JVal → Bool
  | .jstr _ => true
  | _ => false

/-!
# Theorems
-/

/-- The sanitizer follows input nesting all the way down: a chain nested
`k + 1` levels deep cleans to the full `k + 1`-level chain, whatever `k`
is — there is no depth test anywhere in its body. -/
theorem chain_sanitize (k : Nat) :
    validateAndCleanMindMap (chainPayload k) = some (chainClean k) := by
  induction k with
  | zero => decide
  | succ k ih =>
      simp [chainPayload, chainClean, validateAndCleanMindMap,
        lookupField, cleanChildrenField, cleanChildList, cleanSourceText,
        truthy, truncate200, ih]

theorem chain_height (k : Nat) : mmHeight (chainClean k) = k + 1 := by
  induction k with
  | zero => decide
  | succ k ih =>
      simp only [chainClean, mmHeight, mmHeightChildren, mmHeightList, ih]
      omega

/-- The scenario of testable property 13 of the spec: a well-formed root
with one valid and one malformed child keeps exactly the valid child. -/
example :
    validateAndCleanMindMap (.jobj (.cons "title" (.jstr "Doc")
      (.cons "summary" (.jstr "s")
        (.cons "children" (.jarr
          (.cons (.jobj (.cons "title" (.jstr "A") (.cons "summary" (.jstr "a") .nil)))
          (.cons (.jobj (.cons "notATitle" (.jnum 1) .nil))
          .nil))) .nil)))) =
    some (.mk "Doc" "s" (.jstr "N/A")
      (.present (.cons (.mk "A" "a" (.jstr "N/A") .absent) .nil))) := by
  decide

/-- A root whose `title` is not a string is rejected. -/
example :
    validateAndCleanMindMap (.jobj (.cons "title" (.jnum 3)
      (.cons "summary" (.jstr "s") .nil))) = none := by
  decide

theorem truthy_cleanSourceText (x : Option JVal) :
    truthy (cleanSourceText x) = true := by
  match x with
  | none => decide
  | some v =>
      simp only [cleanSourceText]
      split
      · assumption
      · decide

theorem truncate200_length (s : String) : (truncate200 s).length ≤ 200 := by
  have h : (truncate200 s).length = (s.data.take 200).length := rfl
  rw [h, List.length_take]
  omega

theorem truncate200_of_le (s : String) (h : s.length ≤ 200) :
    truncate200 s = s := by
  simp only [truncate200, List.take_of_length_le h]

/-- Every tree the sanitizer returns satisfies the `sanitizedB`
invariant: titles of at most 200 characters and truthy `sourceText`
throughout.  Proved by the sanitizer's own induction principle; the
auxiliary motives state the invariant for the `children` clause and for
child lists. -/
theorem sanitized_of_clean (v : JVal) :
    ∀ n, validateAndCleanMindMap v = some n → sanitizedB n = true := by
  refine validateAndCleanMindMap.induct
    (fun v => ∀ n, validateAndCleanMindMap v = some n → sanitizedB n = true)
    (fun fields => sanitizedChildrenB (cleanChildrenField fields) = true)
    (fun cs => sanitizedListB (cleanChildList cs) = true)
    ?_ ?_ ?_ ?_ ?_ ?_ ?_ ?_ ?_ ?_ v
  · intro fields title summary hs ht hrec n h
    simp only [validateAndCleanMindMap, ht, hs] at h
    cases h
    simp only [sanitizedB, Bool.and_eq_true, decide_eq_true_eq]
    exact ⟨⟨truncate200_length _, truthy_cleanSourceText _⟩, hrec⟩
  · intro fields hfail n h
    simp only [validateAndCleanMindMap] at h
    exact Option.noConfusion h
  · intro t hne n h
    match t, h with
    | .jnull, h => exact Option.noConfusion h
    | .jbool _, h => exact Option.noConfusion h
    | .jnum _, h => exact Option.noConfusion h
    | .jstr _, h => exact Option.noConfusion h
    | .jarr _, h => exact Option.noConfusion h
    | .jobj fields, h => exact (hne fields rfl).elim
  · exact rfl
  · intro a a1 n hsome ih1 ih3
    simp only [cleanChildList, hsome, sanitizedListB, Bool.and_eq_true]
    exact ⟨ih1 n hsome, ih3⟩
  · intro a a1 hnone ih1 ih3
    simp only [cleanChildList, hnone]
    exact ih3
  · exact rfl
  · intro a c cs ih3
    simpa [cleanChildrenField, sanitizedChildrenB] using ih3
  · intro a x hx
    match x, hx with
    | .jnull, _ => rfl
    | .jbool _, _ => rfl
    | .jnum _, _ => rfl
    | .jstr _, _ => rfl
    | .jarr .nil, _ => rfl
    | .jarr (.cons c cs), hx => exact (hx c cs rfl).elim
    | .jobj _, _ => rfl
  · intro k v rest hk ih2
    rw [cleanChildrenField.eq_def]
    simp only []
    rw [if_neg hk]
    exact ih2

/-- `cleanChildrenField` is the `children` lookup followed by the
array-shape dispatch of the source's `if` statement. -/
theorem cleanChildrenField_lookup (fields : JObj) :
    cleanChildrenField fields =
      (match lookupField fields "children" with
        | some (.jarr (.cons c cs)) => .present (cleanChildList (.cons c cs))
        | _ => .absent) := by
  match fields with
  | .nil => rfl
  | .cons k v rest =>
      rw [cleanChildrenField.eq_def, lookupField.eq_def]
      simp only []
      by_cases hk : k = "children"
      · rw [if_pos hk, if_pos hk]
        match v with
        | .jnull | .jbool _ | .jnum _ | .jstr _ | .jobj _ => rfl
        | .jarr .nil => rfl
        | .jarr (.cons c cs) => rfl
      · rw [if_neg hk, if_neg hk, cleanChildrenField_lookup rest]

/-- Re-sanitizing a sanitized tree succeeds and performs exactly one
change: every empty `children` list disappears (it fails the
`length > 0` test the second time around). -/
theorem clean_encode (n : MindMapNode) :
    sanitizedB n = true →
      validateAndCleanMindMap (encodeNode n) = some (pruneEmpty n) := by
  refine encodeNode.induct
    (fun n => sanitizedB n = true →
      validateAndCleanMindMap (encodeNode n) = some (pruneEmpty n))
    (fun c => sanitizedChildrenB c = true →
      cleanChildrenField (encodeChildren c) = pruneEmptyChildren c)
    (fun cs => sanitizedListB cs = true →
      cleanChildList (encodeList cs) = pruneEmptyList cs)
    ?_ ?_ ?_ ?_ ?_ n
  · intro t s st c ih h
    simp only [sanitizedB, Bool.and_eq_true, decide_eq_true_eq] at h
    obtain ⟨⟨hlen, hst⟩, hch⟩ := h
    simp only [encodeNode, pruneEmpty]
    simp [validateAndCleanMindMap, lookupField, cleanChildrenField,
      cleanSourceText, hst, truncate200_of_le t hlen, ih hch]
  · intro _
    rfl
  · intro cs ih h
    simp only [sanitizedChildrenB] at h
    match cs with
    | .nil => rfl
    | .cons c rest =>
        simp only [encodeChildren, encodeList]
        simp [cleanChildrenField, pruneEmptyChildren]
        have e := ih h
        simp only [encodeList] at e
        simp only [e, pruneEmptyList]
  · intro _
    rfl
  · intro c rest ih1 ih3 h
    simp only [sanitizedListB, Bool.and_eq_true] at h
    simp only [encodeList, cleanChildList, ih1 h.1, pruneEmptyList, ih3 h.2]

theorem pruneEmpty_idem (n : MindMapNode) :
    pruneEmpty (pruneEmpty n) = pruneEmpty n := by
  refine pruneEmpty.induct
    (fun n => pruneEmpty (pruneEmpty n) = pruneEmpty n)
    (fun c => pruneEmptyChildren (pruneEmptyChildren c) = pruneEmptyChildren c)
    (fun cs => pruneEmptyList (pruneEmptyList cs) = pruneEmptyList cs)
    ?_ ?_ ?_ ?_ ?_ ?_ n
  · intro t s st c ih
    simp only [pruneEmpty, ih]
  · rfl
  · rfl
  · intro c rest ih
    simp only [pruneEmptyChildren, pruneEmptyList] at ih ⊢
    simp only [ih]
  · rfl
  · intro c rest ih1 ih3
    simp only [pruneEmptyList, ih1, ih3]

/-- Inversion of a successful sanitizer run: the input is an object with
string `title` and `summary`, and the output is built from them. -/
theorem clean_inversion (fields : JObj) (n : MindMapNode)
    (h : validateAndCleanMindMap (.jobj fields) = some n) :
    ∃ t s, lookupField fields "title" = some (.jstr t) ∧
      lookupField fields "summary" = some (.jstr s) ∧
      n = .mk (truncate200 t) s
        (cleanSourceText (lookupField fields "sourceText"))
        (cleanChildrenField fields) := by
  simp only [validateAndCleanMindMap] at h
  split at h
  · next t s h1 h2 =>
      exact ⟨t, s, by assumption, by assumption, (Option.some.inj h).symm⟩
  · exact Option.noConfusion h

/-- A successful sanitizer run only happens on objects. -/
theorem clean_some_jobj (v : JVal) (n : MindMapNode)
    (h : validateAndCleanMindMap v = some n) : ∃ fields, v = .jobj fields := by
  match v, h with
  | .jnull, h | .jbool _, h | .jnum _, h | .jstr _, h | .jarr _, h =>
      exact Option.noConfusion h
  | .jobj fields, _ => exact ⟨fields, rfl⟩

theorem childrenMatch_eq_absent (o : Option JVal) :
    (match o with
      | some (.jarr (.cons c cs)) => MMChildren.present (cleanChildList (.cons c cs))
      | _ => MMChildren.absent) = .absent ↔
    ∀ c cs, o ≠ some (.jarr (.cons c cs)) := by
  match o with
  | none => simp
  | some .jnull => simp
  | some (.jbool b) => simp
  | some (.jnum m) => simp
  | some (.jstr s) => simp
  | some (.jobj f) => simp
  | some (.jarr .nil) => simp
  | some (.jarr (.cons c cs)) =>
      constructor
      · intro habs
        exact MMChildren.noConfusion habs
      · intro hno
        exact (hno c cs rfl).elim

/-- C2, corrected.  Re-running the sanitizer on one of its outputs
succeeds, and returns the output with every empty `children` list
dropped; dropping empty lists is idempotent, so a third run changes
nothing more.  On outputs that contain no empty `children` list (in
particular on every tree in which no child was discarded), re-running is
the identity. -/
theorem claim_C2 (v : JVal) (n : MindMapNode)
    (h : validateAndCleanMindMap v = some n) :
    validateAndCleanMindMap (encodeNode n) = some (pruneEmpty n) ∧
    pruneEmpty (pruneEmpty n) = pruneEmpty n :=
  ⟨clean_encode n (sanitized_of_clean v n h), pruneEmpty_idem n⟩

/-- C2's counterexample: a valid root whose only child is invalid
sanitizes to a tree with `children: []`; re-running the sanitizer on that
output removes the `children` property, so the two runs disagree. -/
theorem claim_C2_counterexample :
    validateAndCleanMindMap (.jobj (.cons "title" (.jstr "t")
      (.cons "summary" (.jstr "s")
        (.cons "children" (.jarr (.cons (.jnum 1) .nil)) .nil)))) =
      some (.mk "t" "s" (.jstr "N/A") (.present .nil)) ∧
    validateAndCleanMindMap (encodeNode (.mk "t" "s" (.jstr "N/A") (.present .nil))) =
      some (.mk "t" "s" (.jstr "N/A") .absent) ∧
    (MindMapNode.mk "t" "s" (.jstr "N/A") .absent) ≠
      (.mk "t" "s" (.jstr "N/A") (.present .nil)) := by
  decide

theorem claim_C2_witness :
    validateAndCleanMindMap
        (encodeNode (.mk "t" "s" (.jstr "N/A") (.present .nil))) =
      some (pruneEmpty (.mk "t" "s" (.jstr "N/A") (.present .nil))) ∧
    pruneEmpty (pruneEmpty (.mk "t" "s" (.jstr "N/A") (.present .nil))) =
      pruneEmpty (.mk "t" "s" (.jstr "N/A") (.present .nil)) :=
  claim_C2
    (.jobj (.cons "title" (.jstr "t") (.cons "summary" (.jstr "s")
      (.cons "children" (.jarr (.cons (.jnum 1) .nil)) .nil))))
    (.mk "t" "s" (.jstr "N/A") (.present .nil)) (by decide)

/-- C3, corrected.  The sanitized node's `children` property is absent
exactly when the input has no `children` property bound to a non-empty
array; when the input's `children` is a non-empty array, the property is
present and holds the filtered child list — which is the (present) empty
sequence when every child fails validation. -/
theorem claim_C3 (fields : JObj) (n : MindMapNode)
    (h : validateAndCleanMindMap (.jobj fields) = some n) :
    (n.children = .absent ↔
      ∀ c cs, lookupField fields "children" ≠ some (.jarr (.cons c cs))) ∧
    (∀ c cs, lookupField fields "children" = some (.jarr (.cons c cs)) →
      n.children = .present (cleanChildList (.cons c cs))) := by
  obtain ⟨t, s, ht, hs, rfl⟩ := clean_inversion fields n h
  simp only [MindMapNode.children]
  rw [cleanChildrenField_lookup]
  refine ⟨childrenMatch_eq_absent _, ?_⟩
  intro c cs hl
  rw [hl]

/-- C3's counterexample: a valid node whose `children` is a non-empty
array with only invalid entries keeps a present, empty `children`
property — not an absent one. -/
theorem claim_C3_counterexample :
    validateAndCleanMindMap (.jobj (.cons "title" (.jstr "t")
      (.cons "summary" (.jstr "s")
        (.cons "children" (.jarr (.cons (.jbool false) .nil)) .nil)))) =
      some (.mk "t" "s" (.jstr "N/A") (.present .nil)) ∧
    (MMChildren.present .nil) ≠ .absent := by
  decide

theorem claim_C3_witness :
    ((MindMapNode.mk "t" "s" (.jstr "N/A")
        (.present (.cons (.mk "c" "c" (.jstr "N/A") .absent) .nil))).children = .absent ↔
      ∀ c cs, lookupField (.cons "title" (.jstr "t") (.cons "summary" (.jstr "s")
          (.cons "children" (.jarr (.cons (.jobj (.cons "title" (.jstr "c")
            (.cons "summary" (.jstr "c") .nil))) .nil)) .nil))) "children" ≠
        some (.jarr (.cons c cs))) ∧
    (∀ c cs, lookupField (.cons "title" (.jstr "t") (.cons "summary" (.jstr "s")
          (.cons "children" (.jarr (.cons (.jobj (.cons "title" (.jstr "c")
            (.cons "summary" (.jstr "c") .nil))) .nil)) .nil))) "children" =
        some (.jarr (.cons c cs)) →
      (MindMapNode.mk "t" "s" (.jstr "N/A")
        (.present (.cons (.mk "c" "c" (.jstr "N/A") .absent) .nil))).children =
        .present (cleanChildList (.cons c cs))) :=
  claim_C3 (.cons "title" (.jstr "t") (.cons "summary" (.jstr "s")
      (.cons "children" (.jarr (.cons (.jobj (.cons "title" (.jstr "c")
        (.cons "summary" (.jstr "c") .nil))) .nil)) .nil)))
    (.mk "t" "s" (.jstr "N/A")
      (.present (.cons (.mk "c" "c" (.jstr "N/A") .absent) .nil)))
    (by decide)

/-- C4, corrected.  The sanitizer has no depth detection and no depth
cap: it is total over the (finite, acyclic) values `JSON.parse` can
produce because such values are finite, and it follows the input's
nesting all the way down — a valid chain nested `k + 1` levels deep
sanitizes to the full `k + 1`-level tree for every `k`, instead of
failing beyond a ceiling. -/
theorem claim_C4 (k : Nat) :
    validateAndCleanMindMap (chainPayload k) = some (chainClean k) ∧
    mmHeight (chainClean k) = k + 1 :=
  ⟨chain_sanitize k, chain_height k⟩

/-- C4's counterexample: a valid input nested 121 levels deep — far past
the claimed ceiling of 100 — sanitizes successfully to the 121-level
tree; no validation failure is signalled. -/
theorem claim_C4_counterexample :
    validateAndCleanMindMap (chainPayload 120) = some (chainClean 120) ∧
    mmHeight (chainClean 120) = 121 :=
  ⟨chain_sanitize 120, chain_height 120⟩

/-- C5, corrected.  `sourceText` is copied only when it is present and
truthy; an absent `sourceText` becomes the sentinel `"N/A"`, but so does
a present falsy one (the empty string, `0`, `false`, `null`), because
the code tests `node.sourceText || 'N/A'`, not presence. -/
theorem claim_C5 (fields : JObj) (n : MindMapNode)
    (h : validateAndCleanMindMap (.jobj fields) = some n) :
    (lookupField fields "sourceText" = none → n.sourceText = .jstr "N/A") ∧
    (∀ v, lookupField fields "sourceText" = some v → truthy v = true →
      n.sourceText = v) ∧
    (∀ v, lookupField fields "sourceText" = some v → truthy v = false →
      n.sourceText = .jstr "N/A") := by
  obtain ⟨t, s, ht, hs, rfl⟩ := clean_inversion fields n h
  simp only [MindMapNode.sourceText]
  refine ⟨?_, ?_, ?_⟩
  · intro hl
    rw [hl]
    rfl
  · intro v hl hv
    rw [hl]
    simp [cleanSourceText, hv]
  · intro v hl hv
    rw [hl]
    simp [cleanSourceText, hv]

/-- C5's counterexample: `sourceText` present but equal to the empty
string (falsy) is replaced by the sentinel even though it is present. -/
theorem claim_C5_counterexample :
    validateAndCleanMindMap (.jobj (.cons "title" (.jstr "t")
      (.cons "summary" (.jstr "s") (.cons "sourceText" (.jstr "") .nil)))) =
      some (.mk "t" "s" (.jstr "N/A") .absent) ∧
    lookupField (.cons "title" (.jstr "t") (.cons "summary" (.jstr "s")
      (.cons "sourceText" (.jstr "") .nil))) "sourceText" = some (.jstr "") ∧
    (JVal.jstr "") ≠ (.jstr "N/A") := by
  decide

theorem claim_C5_witness :
    ((lookupField (.cons "title" (.jstr "t") (.cons "summary" (.jstr "s")
        (.cons "sourceText" (.jstr "src") .nil))) "sourceText" = none →
      (MindMapNode.mk "t" "s" (.jstr "src") .absent).sourceText = .jstr "N/A") ∧
    (∀ v, lookupField (.cons "title" (.jstr "t") (.cons "summary" (.jstr "s")
        (.cons "sourceText" (.jstr "src") .nil))) "sourceText" = some v →
      truthy v = true →
      (MindMapNode.mk "t" "s" (.jstr "src") .absent).sourceText = v) ∧
    (∀ v, lookupField (.cons "title" (.jstr "t") (.cons "summary" (.jstr "s")
        (.cons "sourceText" (.jstr "src") .nil))) "sourceText" = some v →
      truthy v = false →
      (MindMapNode.mk "t" "s" (.jstr "src") .absent).sourceText = .jstr "N/A")) :=
  claim_C5 (.cons "title" (.jstr "t") (.cons "summary" (.jstr "s")
      (.cons "sourceText" (.jstr "src") .nil)))
    (.mk "t" "s" (.jstr "src") .absent) (by decide)

/-- Every node of a sanitizer output has a title of at most 200
characters and a truthy `sourceText`. -/
theorem good_of_sanitized (n : MindMapNode) :
    sanitizedB n = true →
      ∀ m ∈ mmDescend n, m.title.length ≤ 200 ∧ truthy m.sourceText = true := by
  refine mmDescend.induct
    (fun n => sanitizedB n = true →
      ∀ m ∈ mmDescend n, m.title.length ≤ 200 ∧ truthy m.sourceText = true)
    (fun cs => sanitizedListB cs = true →
      ∀ m ∈ mmDescendList cs, m.title.length ≤ 200 ∧ truthy m.sourceText = true)
    ?_ ?_ ?_ ?_ n
  · intro t s st h m hm
    simp only [mmDescend, List.mem_singleton] at hm
    subst hm
    simp only [sanitizedB, sanitizedChildrenB, Bool.and_eq_true,
      decide_eq_true_eq] at h
    exact ⟨h.1.1, h.1.2⟩
  · intro t s st cs ih h m hm
    simp only [mmDescend, List.mem_cons] at hm
    simp only [sanitizedB, sanitizedChildrenB, Bool.and_eq_true,
      decide_eq_true_eq] at h
    rcases hm with rfl | hm
    · exact ⟨h.1.1, h.1.2⟩
    · exact ih h.2 m hm
  · intro _ m hm
    simp only [mmDescendList] at hm
    exact absurd hm (List.not_mem_nil m)
  · intro c rest ih1 ih3 h m hm
    simp only [sanitizedListB, Bool.and_eq_true] at h
    simp only [mmDescendList, List.mem_append] at hm
    rcases hm with hm | hm
    · exact ih1 h.1 m hm
    · exact ih3 h.2 m hm

/-- C6, corrected.  Every node of a returned tree has a string title of
at most 200 characters and a string summary; the root's title is the
input title truncated to 200 characters (a prefix, of length exactly 200
when the input title was longer).  But `sourceText` is only guaranteed
to be a *truthy* value, not a string: a truthy non-string input
`sourceText` is copied verbatim. -/
theorem claim_C6 (v : JVal) (n : MindMapNode)
    (h : validateAndCleanMindMap v = some n) :
    (∀ m ∈ mmDescend n, m.title.length ≤ 200 ∧ truthy m.sourceText = true) ∧
    (∀ fields t, v = .jobj fields →
      lookupField fields "title" = some (.jstr t) →
      n.title = truncate200 t ∧ n.title.length ≤ 200 ∧
      (200 < t.length → n.title.length = 200) ∧
      ∃ u, t.data = n.title.data ++ u) := by
  refine ⟨good_of_sanitized n (sanitized_of_clean v n h), ?_⟩
  rintro fields t rfl ht
  obtain ⟨t', s, ht', hs, rfl⟩ := clean_inversion fields _ h
  rw [ht] at ht'
  cases JVal.jstr.inj (Option.some.inj ht')
  simp only [MindMapNode.title]
  refine ⟨trivial, truncate200_length t, ?_, ?_⟩
  · intro hlong
    have hlen : (truncate200 t).length = (t.data.take 200).length := rfl
    rw [hlen, List.length_take]
    have : t.length = t.data.length := rfl
    omega
  · exact ⟨t.data.drop 200, (List.take_append_drop 200 t.data).symm⟩

/-- C6's counterexample: a truthy non-string `sourceText` (here the
boolean `true`) is copied verbatim, so the sanitized node's `sourceText`
is not a string. -/
theorem claim_C6_counterexample :
    validateAndCleanMindMap (.jobj (.cons "title" (.jstr "t")
      (.cons "summary" (.jstr "s") (.cons "sourceText" (.jbool true) .nil)))) =
      some (.mk "t" "s" (.jbool true) .absent) ∧
    JVal.isStr (MindMapNode.sourceText (.mk "t" "s" (.jbool true) .absent)) =
      false := by
  decide

theorem claim_C6_witness :
    ((∀ m ∈ mmDescend (.mk "t" "s" (.jstr "N/A") .absent),
      m.title.length ≤ 200 ∧ truthy m.sourceText = true) ∧
    (∀ fields t, JVal.jobj (.cons "title" (.jstr "t")
        (.cons "summary" (.jstr "s") .nil)) = .jobj fields →
      lookupField fields "title" = some (.jstr t) →
      (MindMapNode.mk "t" "s" (.jstr "N/A") .absent).title = truncate200 t ∧
      (MindMapNode.mk "t" "s" (.jstr "N/A") .absent).title.length ≤ 200 ∧
      (200 < t.length →
        (MindMapNode.mk "t" "s" (.jstr "N/A") .absent).title.length = 200) ∧
      ∃ u, t.data = (MindMapNode.mk "t" "s" (.jstr "N/A") .absent).title.data ++ u)) :=
  claim_C6 (.jobj (.cons "title" (.jstr "t") (.cons "summary" (.jstr "s") .nil)))
    (.mk "t" "s" (.jstr "N/A") .absent) (by decide)

theorem self_mem_mmDescend (n : MindMapNode) : n ∈ mmDescend n := by
  match n with
  | .mk t s st .absent => simp [mmDescend]
  | .mk t s st (.present cs) => simp [mmDescend]

theorem mem_of_getLast?_eq {α : Type} (l : List α) (a : α)
    (h : l.getLast? = some a) : a ∈ l := by
  obtain ⟨hne, rfl⟩ :=
    List.mem_getLast?_eq_getLast (l := l) (Option.mem_def.mpr h)
  exact List.getLast_mem hne

/-- What a found path is: it starts at the root, ends at the selected
node, follows parent→child links, and stays inside the tree. -/
theorem pathTo_spec (t sel : MindMapNode) :
    ∀ p, pathTo t sel = some p →
      p.head? = some t ∧ p.getLast? = some sel ∧
      List.Chain' (fun a b => b ∈ childNodes a) p ∧
      ∀ m ∈ p, m ∈ mmDescend t := by
  refine pathTo.induct
    (fun t sel => ∀ p, pathTo t sel = some p →
      p.head? = some t ∧ p.getLast? = some sel ∧
      List.Chain' (fun a b => b ∈ childNodes a) p ∧
      ∀ m ∈ p, m ∈ mmDescend t)
    (fun cs sel => ∀ p, pathToList cs sel = some p →
      p.getLast? = some sel ∧
      List.Chain' (fun a b => b ∈ childNodes a) p ∧
      (∃ c0, p.head? = some c0 ∧ c0 ∈ cs.toList) ∧
      ∀ m ∈ p, m ∈ mmDescendList cs)
    ?_ ?_ ?_ ?_ ?_ ?_ t sel
  · intro t s st c p hp
    rw [pathTo.eq_def] at hp
    simp only [] at hp
    simp only [if_true] at hp
    cases Option.some.inj hp
    exact ⟨rfl, rfl, List.chain'_singleton _,
      fun m hm => by
        rw [List.mem_singleton] at hm
        exact hm ▸ self_mem_mmDescend _⟩
  · intro t s st sel hne p hp
    rw [pathTo.eq_def] at hp
    simp only [] at hp
    rw [if_neg hne] at hp
    exact Option.noConfusion hp
  · intro t s st sel cs hne ih p hp
    rw [pathTo.eq_def] at hp
    simp only [] at hp
    rw [if_neg hne] at hp
    obtain ⟨p', hp', rfl⟩ := Option.map_eq_some'.mp hp
    obtain ⟨hlast, hchain, ⟨c0, hhead, hc0⟩, hmem⟩ := ih p' hp'
    obtain ⟨p'', rfl⟩ : ∃ p'', p' = c0 :: p'' := by
      match p', hhead with
      | c0 :: p'', rfl => exact ⟨p'', rfl⟩
    refine ⟨rfl, ?_, ?_, ?_⟩
    · rw [List.getLast?_cons_cons]
      exact hlast
    · refine List.chain'_cons'.mpr ⟨?_, hchain⟩
      intro y hy
      cases Option.some.inj hy
      simpa [childNodes] using hc0
    · intro m hm
      rcases List.mem_cons.mp hm with rfl | hm
      · exact self_mem_mmDescend _
      · simpa [mmDescend] using Or.inr (hmem m hm)
  · intro x p hp
    exact Option.noConfusion hp
  · intro c rest sel p0 hsome ih p hp
    simp only [pathToList, hsome] at hp
    cases hp
    obtain ⟨hhead, hlast, hchain, hmem⟩ := ih p0 hsome
    refine ⟨hlast, hchain, ⟨c, hhead, by simp [MMList.toList]⟩, ?_⟩
    intro m hm
    simp only [mmDescendList, List.mem_append]
    exact Or.inl (hmem m hm)
  · intro c rest sel hnone ih1 ih2 p hp
    simp only [pathToList, hnone] at hp
    obtain ⟨hlast, hchain, ⟨c0, hhead, hc0⟩, hmem⟩ := ih2 p hp
    refine ⟨hlast, hchain, ⟨c0, hhead, by simp [MMList.toList, hc0]⟩, ?_⟩
    intro m hm
    simp only [mmDescendList, List.mem_append]
    exact Or.inr (hmem m hm)

/-- A selected node that occurs in the tree is found: the path search
succeeds. -/
theorem pathTo_isSome (t sel : MindMapNode) :
    sel ∈ mmDescend t → ∃ p, pathTo t sel = some p := by
  refine pathTo.induct
    (fun t sel => sel ∈ mmDescend t → ∃ p, pathTo t sel = some p)
    (fun cs sel => sel ∈ mmDescendList cs → ∃ p, pathToList cs sel = some p)
    ?_ ?_ ?_ ?_ ?_ ?_ t sel
  · intro t s st c _
    refine ⟨[.mk t s st c], ?_⟩
    rw [pathTo.eq_def]
    simp
  · intro t s st sel hne hmem
    simp only [mmDescend, List.mem_singleton] at hmem
    exact (hne hmem.symm).elim
  · intro t s st sel cs hne ih hmem
    simp only [mmDescend, List.mem_cons] at hmem
    rcases hmem with rfl | hmem
    · exact (hne rfl).elim
    · obtain ⟨p, hp⟩ := ih hmem
      refine ⟨.mk t s st (.present cs) :: p, ?_⟩
      rw [pathTo.eq_def]
      simp only []
      rw [if_neg hne, hp]
      rfl
  · intro x hmem
    simp only [mmDescendList] at hmem
    exact absurd hmem (List.not_mem_nil x)
  · intro c rest sel p0 hsome ih hmem
    exact ⟨p0, by simp only [pathToList, hsome]⟩
  · intro c rest sel hnone ih1 ih2 hmem
    simp only [mmDescendList, List.mem_append] at hmem
    rcases hmem with hmem | hmem
    · obtain ⟨p, hp⟩ := ih1 hmem
      rw [hnone] at hp
      exact Option.noConfusion hp
    · obtain ⟨p, hp⟩ := ih2 hmem
      exact ⟨p, by simp only [pathToList, hnone]; exact hp⟩

/-- A found path implies the selected node occurs in the tree. -/
theorem mem_of_pathTo (t sel : MindMapNode) (p : List MindMapNode)
    (h : pathTo t sel = some p) : sel ∈ mmDescend t := by
  obtain ⟨_, hlast, _, hmem⟩ := pathTo_spec t sel p h
  exact hmem sel (mem_of_getLast?_eq p sel hlast)

/-- A stale selection makes the path search fail, so the `ancestors` set
is empty. -/
theorem pathTo_eq_none_of_not_mem (t sel : MindMapNode)
    (h : sel ∉ mmDescend t) : pathTo t sel = none := by
  cases hp : pathTo t sel with
  | none => rfl
  | some p => exact absurd (mem_of_pathTo t sel p hp) h

/-- C1, corrected.  A stale selection (a selected node absent from the
current tree) does not fail — but it is *not* treated like a null
selection.  The `find` over the descendants comes back empty, the
`ancestors` set stays empty, and the membership test then dims every
node (opacity `0.15`) and every edge (stroke opacity `0.1`); a null
selection instead renders everything at full opacity.  The selected
node's active styling applies to no rendered node, so every circle keeps
radius `5`. -/
theorem claim_C1 (t s : MindMapNode) (hs : s ∉ mmDescend t) :
    (∀ m ∈ mmDescend t,
      nodeOpacity true t (some s) m = 0.15 ∧
      nodeOpacity true t none m = 1 ∧
      circleRadius true (some s) m = 5) ∧
    (∀ e ∈ treeLinks t,
      linkStrokeOpacity true t (some s) e.1 e.2 = 0.1 ∧
      linkStrokeOpacity true t none e.1 e.2 = 1) := by
  have hnone : pathTo t s = none := pathTo_eq_none_of_not_mem t s hs
  have hanc : focusAncestors t s = [] := by
    simp [focusAncestors, hnone]
  constructor
  · intro m hm
    refine ⟨?_, rfl, ?_⟩
    · simp [nodeOpacity, hanc]
    · have hne : m ≠ s := fun e => hs (e ▸ hm)
      simp [circleRadius, hne]
  · intro e _
    exact ⟨by simp [linkStrokeOpacity, hanc], rfl⟩

/-- C1's counterexample: in a two-node tree with a stale selection, the
focus pass dims the root (opacity `0.15`), whereas a null selection
leaves it at full opacity — the two states differ. -/
theorem claim_C1_counterexample :
    nodeOpacity true
      (.mk "root" "r" (.jstr "N/A")
        (.present (.cons (.mk "kid" "k" (.jstr "N/A") .absent) .nil)))
      (some (.mk "ghost" "g" (.jstr "N/A") .absent))
      (.mk "root" "r" (.jstr "N/A")
        (.present (.cons (.mk "kid" "k" (.jstr "N/A") .absent) .nil))) = 0.15 ∧
    nodeOpacity true
      (.mk "root" "r" (.jstr "N/A")
        (.present (.cons (.mk "kid" "k" (.jstr "N/A") .absent) .nil)))
      none
      (.mk "root" "r" (.jstr "N/A")
        (.present (.cons (.mk "kid" "k" (.jstr "N/A") .absent) .nil))) = 1 ∧
    (0.15 : ℚ) ≠ 1 := by
  have hnone : pathTo
      (.mk "root" "r" (.jstr "N/A")
        (.present (.cons (.mk "kid" "k" (.jstr "N/A") .absent) .nil)))
      (.mk "ghost" "g" (.jstr "N/A") .absent) = none := by decide
  refine ⟨?_, rfl, by norm_num⟩
  simp [nodeOpacity, focusAncestors, hnone]

theorem claim_C1_witness :
    (∀ m ∈ mmDescend (.mk "root" "r" (.jstr "N/A")
        (.present (.cons (.mk "kid" "k" (.jstr "N/A") .absent) .nil))),
      nodeOpacity true (.mk "root" "r" (.jstr "N/A")
        (.present (.cons (.mk "kid" "k" (.jstr "N/A") .absent) .nil)))
        (some (.mk "ghost" "g" (.jstr "N/A") .absent)) m = 0.15 ∧
      nodeOpacity true (.mk "root" "r" (.jstr "N/A")
        (.present (.cons (.mk "kid" "k" (.jstr "N/A") .absent) .nil))) none m = 1 ∧
      circleRadius true (some (.mk "ghost" "g" (.jstr "N/A") .absent)) m = 5) ∧
    (∀ e ∈ treeLinks (.mk "root" "r" (.jstr "N/A")
        (.present (.cons (.mk "kid" "k" (.jstr "N/A") .absent) .nil))),
      linkStrokeOpacity true (.mk "root" "r" (.jstr "N/A")
        (.present (.cons (.mk "kid" "k" (.jstr "N/A") .absent) .nil)))
        (some (.mk "ghost" "g" (.jstr "N/A") .absent)) e.1 e.2 = 0.1 ∧
      linkStrokeOpacity true (.mk "root" "r" (.jstr "N/A")
        (.present (.cons (.mk "kid" "k" (.jstr "N/A") .absent) .nil)))
        none e.1 e.2 = 1) :=
  claim_C1
    (.mk "root" "r" (.jstr "N/A")
      (.present (.cons (.mk "kid" "k" (.jstr "N/A") .absent) .nil)))
    (.mk "ghost" "g" (.jstr "N/A") .absent) (by decide)

/-- C7, confirmed.  For a selected node occurring in the tree, the focus
pass finds the root-to-selected path: every node gets opacity `1` iff it
is on the path and `0.15` otherwise, an edge gets stroke opacity `1` iff
both endpoints are on the path, and the selected node alone receives the
active styling (radius `8`, amber fill), everything else the normal
styling.  The path starts at the root, ends at the selected node,
follows parent→child links, and lies inside the tree.  The `Nodup`
hypothesis restricts to trees whose node data are pairwise distinct, on
which the embedding's structural equality coincides with the
component's reference identity. -/
theorem claim_C7 (t s : MindMapNode) (hnd : (mmDescend t).Nodup)
    (hs : s ∈ mmDescend t) :
    ∃ p, pathTo t s = some p ∧
      p.head? = some t ∧ p.getLast? = some s ∧
      List.Chain' (fun a b => b ∈ childNodes a) p ∧
      (∀ m ∈ p, m ∈ mmDescend t) ∧
      (∀ m, nodeOpacity true t (some s) m = if m ∈ p then 1 else 0.15) ∧
      (∀ dk : Bool, circleRadius true (some s) s = 8 ∧
        circleFill dk true (some s) s = "#f59e0b") ∧
      (∀ m, m ≠ s → circleRadius true (some s) m = 5 ∧
        ∀ dk : Bool, circleFill dk true (some s) m = defaultCircleFill dk m) ∧
      (∀ a b, linkStrokeOpacity true t (some s) a b =
        if a ∈ p ∧ b ∈ p then 1 else 0.1) := by
  obtain ⟨p, hp⟩ := pathTo_isSome t s hs
  obtain ⟨hh, hl, hc, hm⟩ := pathTo_spec t s p hp
  refine ⟨p, hp, hh, hl, hc, hm, ?_, ?_, ?_, ?_⟩
  · intro m
    simp [nodeOpacity, focusAncestors, hp]
  · intro dk
    exact ⟨by simp [circleRadius], by simp [circleFill]⟩
  · intro m hne
    exact ⟨by simp [circleRadius, hne],
      fun dk => by simp [circleFill, hne]⟩
  · intro a b
    simp [linkStrokeOpacity, focusAncestors, hp]

theorem claim_C7_witness :
    ∃ p, pathTo
        (.mk "root" "r" (.jstr "N/A")
          (.present (.cons (.mk "kid" "k" (.jstr "N/A") .absent) .nil)))
        (.mk "kid" "k" (.jstr "N/A") .absent) = some p ∧
      p.head? = some (.mk "root" "r" (.jstr "N/A")
        (.present (.cons (.mk "kid" "k" (.jstr "N/A") .absent) .nil))) ∧
      p.getLast? = some (.mk "kid" "k" (.jstr "N/A") .absent) ∧
      List.Chain' (fun a b => b ∈ childNodes a) p ∧
      (∀ m ∈ p, m ∈ mmDescend (.mk "root" "r" (.jstr "N/A")
        (.present (.cons (.mk "kid" "k" (.jstr "N/A") .absent) .nil)))) ∧
      (∀ m, nodeOpacity true
        (.mk "root" "r" (.jstr "N/A")
          (.present (.cons (.mk "kid" "k" (.jstr "N/A") .absent) .nil)))
        (some (.mk "kid" "k" (.jstr "N/A") .absent)) m =
          if m ∈ p then 1 else 0.15) ∧
      (∀ dk : Bool, circleRadius true
          (some (.mk "kid" "k" (.jstr "N/A") .absent))
          (.mk "kid" "k" (.jstr "N/A") .absent) = 8 ∧
        circleFill dk true (some (.mk "kid" "k" (.jstr "N/A") .absent))
          (.mk "kid" "k" (.jstr "N/A") .absent) = "#f59e0b") ∧
      (∀ m, m ≠ (.mk "kid" "k" (.jstr "N/A") .absent) →
        circleRadius true (some (.mk "kid" "k" (.jstr "N/A") .absent)) m = 5 ∧
        ∀ dk : Bool, circleFill dk true
          (some (.mk "kid" "k" (.jstr "N/A") .absent)) m =
            defaultCircleFill dk m) ∧
      (∀ a b, linkStrokeOpacity true
        (.mk "root" "r" (.jstr "N/A")
          (.present (.cons (.mk "kid" "k" (.jstr "N/A") .absent) .nil)))
        (some (.mk "kid" "k" (.jstr "N/A") .absent)) a b =
          if a ∈ p ∧ b ∈ p then 1 else 0.1) :=
  claim_C7
    (.mk "root" "r" (.jstr "N/A")
      (.present (.cons (.mk "kid" "k" (.jstr "N/A") .absent) .nil)))
    (.mk "kid" "k" (.jstr "N/A") .absent) (by decide) (by decide)

/-- Every hierarchy has at least one leaf (a childless root is its own
leaf), so the defensive `leaves.length || 1` in the radius computation
never changes the value. -/
theorem one_le_leavesCount (n : MindMapNode) : 1 ≤ leavesCount n := by
  refine leavesCount.induct (fun n => 1 ≤ leavesCount n)
    (fun cs => cs = .nil ∨ 1 ≤ leavesList cs) ?_ ?_ ?_ ?_ ?_ n
  · intro t s st
    simp [leavesCount]
  · intro t s st
    simp [leavesCount]
  · intro t s st c rest ih
    rcases ih with h | h
    · exact absurd h (by simp)
    · simpa [leavesCount] using h
  · exact Or.inl rfl
  · intro c rest ih ihr
    refine Or.inr ?_
    have := ih
    simp only [leavesList]
    omega

/-- C8, confirmed.  For a positive viewport the computed outer radius is
exactly the larger of the leaf-driven radius `L * 35 / (2π)` and the
viewport floor `min(width, height) / 2.5` — hence at least their maximum
in either order.  (`L ≥ 1` always, so the `|| 1` fallback is inert.) -/
theorem claim_C8 (t : MindMapNode) (w h : ℝ) (hw : 0 < w) (hh : 0 < h) :
    computeRadius t w h =
      max ((leavesCount t : ℝ) * 35 / (2 * Real.pi)) (min w h / 2.5) ∧
    max (min w h / 2.5) ((leavesCount t : ℝ) * 35 / (2 * Real.pi)) ≤
      computeRadius t w h := by
  have h1 : leavesCount t ≠ 0 := by
    have := one_le_leavesCount t
    omega
  have e : computeRadius t w h =
      max ((leavesCount t : ℝ) * 35 / (2 * Real.pi)) (min w h / 2.5) := by
    simp [computeRadius, h1]
  exact ⟨e, by rw [e, max_comm]⟩

theorem claim_C8_witness :
    (0 : ℝ) < 100 ∧ (0 : ℝ) < 80 ∧
    (computeRadius (.mk "a" "b" (.jstr "N/A") .absent) 100 80 =
      max ((leavesCount (.mk "a" "b" (.jstr "N/A") .absent) : ℝ) * 35 /
        (2 * Real.pi)) (min 100 80 / 2.5) ∧
    max (min (100 : ℝ) 80 / 2.5)
        ((leavesCount (.mk "a" "b" (.jstr "N/A") .absent) : ℝ) * 35 /
          (2 * Real.pi)) ≤
      computeRadius (.mk "a" "b" (.jstr "N/A") .absent) 100 80) :=
  ⟨by norm_num, by norm_num,
    claim_C8 (.mk "a" "b" (.jstr "N/A") .absent) 100 80
      (by norm_num) (by norm_num)⟩

/-- C9, confirmed.  When the durable write throws, both `saveMindMap`
and `deleteMindMap` return exactly the pre-operation list (the one
`getArchivedMindMaps` read at entry) and the stored state is unchanged. -/
theorem claim_C9 (st : LocalStorage) (now : Int) (nowIso fileName : String)
    (data : MindMapNode) (id : Int) (hthrow : st.setItemThrows = true) :
    (saveMindMap st now nowIso fileName data).1 = getArchivedMindMaps st ∧
    (saveMindMap st now nowIso fileName data).2 = st ∧
    (deleteMindMap st id).1 = getArchivedMindMaps st ∧
    (deleteMindMap st id).2 = st := by
  refine ⟨?_, ?_, ?_, ?_⟩ <;> simp [saveMindMap, deleteMindMap, hthrow]

theorem claim_C9_witness :
    (saveMindMap ⟨some (.wellFormed [⟨7, "old", "2024", .mk "a" "b" (.jstr "N/A") .absent⟩]), true⟩
        9 "2025" "new" (.mk "c" "d" (.jstr "N/A") .absent)).1 =
      getArchivedMindMaps
        ⟨some (.wellFormed [⟨7, "old", "2024", .mk "a" "b" (.jstr "N/A") .absent⟩]), true⟩ ∧
    (saveMindMap ⟨some (.wellFormed [⟨7, "old", "2024", .mk "a" "b" (.jstr "N/A") .absent⟩]), true⟩
        9 "2025" "new" (.mk "c" "d" (.jstr "N/A") .absent)).2 =
      ⟨some (.wellFormed [⟨7, "old", "2024", .mk "a" "b" (.jstr "N/A") .absent⟩]), true⟩ ∧
    (deleteMindMap ⟨some (.wellFormed [⟨7, "old", "2024", .mk "a" "b" (.jstr "N/A") .absent⟩]), true⟩ 7).1 =
      getArchivedMindMaps
        ⟨some (.wellFormed [⟨7, "old", "2024", .mk "a" "b" (.jstr "N/A") .absent⟩]), true⟩ ∧
    (deleteMindMap ⟨some (.wellFormed [⟨7, "old", "2024", .mk "a" "b" (.jstr "N/A") .absent⟩]), true⟩ 7).2 =
      ⟨some (.wellFormed [⟨7, "old", "2024", .mk "a" "b" (.jstr "N/A") .absent⟩]), true⟩ :=
  claim_C9
    ⟨some (.wellFormed [⟨7, "old", "2024", .mk "a" "b" (.jstr "N/A") .absent⟩]), true⟩
    9 "2025" "new" (.mk "c" "d" (.jstr "N/A") .absent) 7 rfl

/-- C10, confirmed.  An empty storage slot lists as the empty archive,
and any failure inside the `try` block (malformed stored text) is caught
and also yields the empty list — the listing never propagates an
exception and always returns a list. -/
theorem claim_C10 (st : LocalStorage) :
    (st.archiveSlot = none → getArchivedMindMaps st = []) ∧
    (∀ e : Unit, getArchivedRaw st = .error e → getArchivedMindMaps st = []) := by
  constructor
  · intro h
    simp [getArchivedMindMaps, getArchivedRaw, h]
  · intro e h
    simp [getArchivedMindMaps, h]

theorem claim_C10_witness :
    getArchivedMindMaps ⟨none, false⟩ = [] ∧
    getArchivedMindMaps ⟨some .malformed, false⟩ = [] :=
  ⟨(claim_C10 ⟨none, false⟩).1 rfl,
    (claim_C10 ⟨some .malformed, false⟩).2 () rfl⟩
